import Mathlib

/-!
Verification of the zerozap bridge (zap → zerolog adapter).

The Go source is shallowly embedded: zerolog events are modelled as ordered
lists of key/value pairs, zap fields as a tagged union mirroring the
`zapcore.Field` kinds handled by the source's switch statements, and the
caller-supplied array/object marshaler callbacks as deep-embedded command
lists over the encoder interfaces they are given.  Go `panic` in `With` is
modelled by a dedicated result constructor, while `Write`'s returned errors
are modelled with `Except`.
-/

/-- Model of a Go `*time.Location` as zerolog sees it: `time.UTC`,
the process-local zone `time.Local`, or some other named zone. -/
inductive GoLocation where
  | utc
  | local
  | named (n : String)
  deriving DecidableEq, Repr

/-- Model of a Go `time.Time`: an instant (nanoseconds since the Unix epoch)
together with the location it is presented in. -/
structure GoTime where
  nanos : Int
  loc : GoLocation
  deriving DecidableEq, Repr

/-- Go `time.Unix(sec, nsec)`: returns the *local* `Time` for the given Unix
instant (per the Go standard library documentation). -/
def timeUnix (sec nsec : Int) : GoTime :=
  ⟨sec * 1000000000 + nsec, GoLocation.local⟩

/-- Go `Time.In(loc)`: same instant, presented in `loc`. -/
def GoTime.inLoc (t : GoTime) (l : GoLocation) : GoTime :=
  ⟨t.nanos, l⟩

/-- The characters of the standard base64 alphabet. -/
def b64digit (n : Nat) : Char :=
  "ABCDEFGHIJKLMNOPQRSTUVWXYZabcdefghijklmnopqrstuvwxyz0123456789+/".toList.getD n 'A'

/-- Go `base64.StdEncoding.EncodeToString` on a byte list (each < 256). -/
def base64Std : List Nat → String
  | [] => ""
  | [a] =>
    String.mk [b64digit (a / 4 % 64), b64digit (a % 4 * 16), '=', '=']
  | [a, b] =>
    String.mk [b64digit (a / 4 % 64), b64digit (a % 4 * 16 + b / 16 % 16),
      b64digit (b % 16 * 4), '=']
  | a :: b :: c :: rest =>
    String.mk [b64digit (a / 4 % 64), b64digit (a % 4 * 16 + b / 16 % 16),
      b64digit (b % 16 * 4 + c / 64), b64digit (c % 64)] ++ base64Std rest

/-- Go `uint64(i)` for an `int64` value: two's-complement reinterpretation. -/
def u64 (i : Int) : Nat :=
  (i % ((2 : Int) ^ 64)).toNat

/-- Go `uint32(i)` for an `int64` value: truncating two's-complement
reinterpretation. -/
def u32 (i : Int) : Nat :=
  (i % ((2 : Int) ^ 32)).toNat

/-- A value handed to the zerolog encoder.  Strings whose exact text is
computed by library routines this development does not re-implement
(`strconv.FormatComplex`) are kept symbolic as dedicated constructors;
everything else carries the value the Go code passes to zerolog. -/
inductive JValue where
  | str (s : String)
  | complex128Str (re im : Nat)
  | complex64Str (re im : Nat)
  | intV (v : Int)
  | uintV (v : Nat)
  | float64V (bits : Nat)
  | float32V (bits : Nat)
  | boolV (b : Bool)
  | bytesV (bs : List Nat)
  | durV (nanos : Int)
  | timeV (t : GoTime)
  | errV (msg : String)
  | arr (elems : List JValue)
  | obj (pairs : List (String × JValue))

/-- The error message of `zeroArray.AppendArray`. -/
def nestedArrayErr : String := "zerolog doesn't support nested arrays"

/-- Deep embedding of a zap `ArrayMarshaler` callback: the sequence of calls
it makes against the `zapcore.ArrayEncoder` it is handed (here `zeroArray`),
with `fail` modelling the callback returning its own non-nil error. -/
inductive ArrOp where
  | appendArray (m : List ArrOp)
  | appendInt (v : Int)
  | appendStr (s : String)
  | appendBool (b : Bool)
  | fail (e : String)

/-- Deep embedding of a zap `ObjectMarshaler` callback: the sequence of calls
it makes against the `zapcore.ObjectEncoder` it is handed (here
`zeroObject`). -/
inductive ObjOp where
  | addArray (k : String) (m : List ArrOp)
  | addInt (k : String) (v : Int)
  | addStr (k : String) (s : String)
  | addBool (k : String) (b : Bool)
  | openNamespace (k : String)
  | fail (e : String)

/-- `zeroArray.AppendArray`: unconditionally returns the unsupported-feature
error without invoking the marshaler or touching the accumulated elements. -/
def zeroArrayAppendArray (st : List JValue) (_ : List ArrOp) :
    List JValue × Option String :=
  (st, some nestedArrayErr)

/-- Running an array marshaler's calls against `zeroArray`: each append
pushes one element onto the zerolog array; the first error short-circuits
(the callback returns it). -/
def runArrOps : List ArrOp → List JValue → List JValue × Option String
  | [], acc => (acc, none)
  | op :: rest, acc =>
    match op with
    | .appendArray m => zeroArrayAppendArray acc m
    | .appendInt v => runArrOps rest (acc ++ [JValue.intV v])
    | .appendStr s => runArrOps rest (acc ++ [JValue.str s])
    | .appendBool b => runArrOps rest (acc ++ [JValue.boolV b])
    | .fail e => (acc, some e)

/-- `arrayProxy.MarshalZerologArray`: run the callback against a fresh
zerolog array, recording the callback's error in the proxy. -/
def runArrMarshal (m : List ArrOp) : List JValue × Option String :=
  runArrOps m []

/-- State of a `zeroObject`: the event currently being written to (`cur`)
plus the chain of namespaces opened by `OpenNamespace`, each remembering its
key and the frozen content of its parent event (most recently opened
first). -/
structure ZeroObjState where
  cur : List (String × JValue)
  openNs : List (String × List (String × JValue))

/-- Running an object marshaler's calls against `zeroObject`.
`openNamespace` mirrors `zeroObject.OpenNamespace`: it redirects subsequent
adds into a fresh sub-event and chains the splice-back for `finish`. -/
def runObjOps : List ObjOp → ZeroObjState → ZeroObjState × Option String
  | [], st => (st, none)
  | op :: rest, st =>
    match op with
    | .addArray k m =>
      let r := runArrMarshal m
      let st2 : ZeroObjState := ⟨st.cur ++ [(k, JValue.arr r.1)], st.openNs⟩
      match r.2 with
      | some e => (st2, some e)
      | none => runObjOps rest st2
    | .addInt k v => runObjOps rest ⟨st.cur ++ [(k, JValue.intV v)], st.openNs⟩
    | .addStr k s => runObjOps rest ⟨st.cur ++ [(k, JValue.str s)], st.openNs⟩
    | .addBool k b => runObjOps rest ⟨st.cur ++ [(k, JValue.boolV b)], st.openNs⟩
    | .openNamespace k => runObjOps rest ⟨[], (k, st.cur) :: st.openNs⟩
    | .fail e => (st, some e)

/-- The `finish` chain built by `zeroObject.OpenNamespace`: splice the
innermost open namespace into its parent event under its key, then continue
outward. -/
def closeNamespaces :
    List (String × JValue) → List (String × List (String × JValue)) →
      List (String × JValue)
  | cur, [] => cur
  | cur, (k, parent) :: rest => closeNamespaces (parent ++ [(k, JValue.obj cur)]) rest

/-- `objectProxy.MarshalZerologObject`: run the callback on a fresh
`zeroObject`, then run the `finish` chain (this happens even when the
callback returned an error), yielding the pairs written to the event and the
callback's error. -/
def runObjMarshal (m : List ObjOp) : List (String × JValue) × Option String :=
  let r := runObjOps m ⟨[], []⟩
  (closeNamespaces r.1.cur r.1.openNs, r.2)

/-- Model of `zapcore.Field`, one constructor per field kind handled by the
source's switch statements.  Payloads mirror the Go representation: `boolF`
keeps the `Integer` register that the code compares with 1, floats and
unsigned integers keep the `Integer` register reinterpreted by the code,
`stringerF` carries the text the payload's `String()` method renders,
`errorF` the text `error.Error()` renders, and `unknown` stands for any
value of the field-type enumeration outside the cases the switch handles
(its string is the `%v` rendering of the field used in the error/panic
message). -/
inductive LogField where
  | array (k : String) (m : List ArrOp)
  | object (k : String) (m : List ObjOp)
  | inline (m : List ObjOp)
  | binary (k : String) (bs : List Nat)
  | boolF (k : String) (integer : Int)
  | byteString (k : String) (bs : List Nat)
  | complex128F (k : String) (re im : Nat)
  | complex64F (k : String) (re im : Nat)
  | durationF (k : String) (integer : Int)
  | float64F (k : String) (integer : Int)
  | float32F (k : String) (integer : Int)
  | intF (k : String) (integer : Int)
  | uintF (k : String) (integer : Int)
  | stringF (k : String) (s : String)
  | timeF (k : String) (integer : Int) (loc : Option GoLocation)
  | timeFullF (k : String) (t : GoTime)
  | reflectF (k : String) (v : JValue)
  | nsMarker (k : String)
  | stringerF (k : String) (rendered : String)
  | errorF (k : String) (msg : String)
  | skip
  | unknown (descr : String)

/-- The message of the error/panic raised for a field kind outside the
enumeration: `fmt.Errorf("unknown field type: %v", f)`. -/
def unknownFieldMsg (d : String) : String := "unknown field type: " ++ d

/-- Outcome of encoding one field, shared by `fieldsToEvent` and
`zeroZap.With` (their switches have identical bodies for every kind except
the namespace marker and the error/panic policy): append `pairs` to the
event then stop with the error if one is recorded, open a namespace scope,
or fail immediately. -/
inductive StepRes where
  | pairs (ps : List (String × JValue)) (err : Option String)
  | nsOpen (k : String)
  | failNow (e : String)

/-- Per-kind encoding of one `zapcore.Field`, translated case by case from
the switch shared by `zeroZap.Write`'s `fieldsToEvent` and `zeroZap.With`:
marshaler kinds run their callback through the array/object proxy (the
partially filled array/object is appended to the event before the error is
checked), primitive kinds append one pair, `skip` appends nothing, and an
unrecognized kind fails. -/
def fieldStep : LogField → StepRes
  | .array k m =>
    let r := runArrMarshal m
    .pairs [(k, JValue.arr r.1)] r.2
  | .object k m =>
    let r := runObjMarshal m
    .pairs [(k, JValue.obj r.1)] r.2
  | .inline m =>
    let r := runObjMarshal m
    .pairs r.1 r.2
  | .binary k bs => .pairs [(k, JValue.str (base64Std bs))] none
  | .boolF k i => .pairs [(k, JValue.boolV (i == 1))] none
  | .byteString k bs => .pairs [(k, JValue.bytesV bs)] none
  | .complex128F k re im => .pairs [(k, JValue.complex128Str re im)] none
  | .complex64F k re im => .pairs [(k, JValue.complex64Str re im)] none
  | .durationF k i => .pairs [(k, JValue.durV i)] none
  | .float64F k i => .pairs [(k, JValue.float64V (u64 i))] none
  | .float32F k i => .pairs [(k, JValue.float32V (u32 i))] none
  | .intF k i => .pairs [(k, JValue.intV i)] none
  | .uintF k i => .pairs [(k, JValue.uintV (u64 i))] none
  | .stringF k s => .pairs [(k, JValue.str s)] none
  | .timeF k i loc =>
    match loc with
    | some l => .pairs [(k, JValue.timeV ((timeUnix 0 i).inLoc l))] none
    | none => .pairs [(k, JValue.timeV (timeUnix 0 i))] none
  | .timeFullF k t => .pairs [(k, JValue.timeV t)] none
  | .reflectF k v => .pairs [(k, v)] none
  | .nsMarker k => .nsOpen k
  | .stringerF k s => .pairs [(k, JValue.str s)] none
  | .errorF k msg => .pairs [(k, JValue.errV msg)] none
  | .skip => .pairs [] none
  | .unknown d => .failNow (unknownFieldMsg d)

/-- The error a single field produces in `fieldsToEvent` (a namespace marker
produces none there: it opens a nested scope instead). -/
def fieldErr (f : LogField) : Option String :=
  match fieldStep f with
  | .pairs _ e => e
  | .nsOpen _ => none
  | .failNow e => some e

/-- The panic a single field raises in `zeroZap.With`: namespace markers are
unsupported there, and every encoding error becomes a panic. -/
def withFieldErr (f : LogField) : Option String :=
  match fieldStep f with
  | .pairs _ e => e
  | .nsOpen _ => some "unsupported field type namespace"
  | .failNow e => some e

def zapDebugLevel : Int := -1
def zapInfoLevel : Int := 0
def zapWarnLevel : Int := 1
def zapErrorLevel : Int := 2
def zapDPanicLevel : Int := 3
def zapPanicLevel : Int := 4
def zapFatalLevel : Int := 5

def zerologDebugLevel : Int := 0
def zerologInfoLevel : Int := 1
def zerologWarnLevel : Int := 2
def zerologErrorLevel : Int := 3
def zerologFatalLevel : Int := 4
def zerologPanicLevel : Int := 5

/-- The `levelMap` Go map: looking up a key that is absent yields the map's
zero value, `zerolog.Level(0)`, which is `zerolog.DebugLevel`. -/
def levelMap (l : Int) : Int :=
  if l = zapDebugLevel then zerologDebugLevel
  else if l = zapInfoLevel then zerologInfoLevel
  else if l = zapWarnLevel then zerologWarnLevel
  else if l = zapErrorLevel then zerologErrorLevel
  else if l = zapDPanicLevel then zerologPanicLevel
  else if l = zapPanicLevel then zerologPanicLevel
  else if l = zapFatalLevel then zerologFatalLevel
  else zerologDebugLevel

/-- zerolog's default `LevelFieldMarshalFunc`: the level name written into
the `level` field of the emitted line. -/
def zeroLevelName (l : Int) : String :=
  if l = -1 then "trace"
  else if l = 0 then "debug"
  else if l = 1 then "info"
  else if l = 2 then "warn"
  else if l = 3 then "error"
  else if l = 4 then "fatal"
  else if l = 5 then "panic"
  else ""

/-- zerolog's default reserved field names used by `zeroZap.Write`. -/
def LevelFieldName : String := "level"
def TimestampFieldName : String := "time"
def ErrorStackFieldName : String := "stack"
def CallerFieldName : String := "caller"
def MessageFieldName : String := "message"

/-- The bridge core: wraps one zerolog logger, modelled by its configured
minimum level and its accumulated context fields. -/
structure ZeroZap where
  level : Int
  context : List (String × JValue)

/-- The three process-wide copy flags (`CopyTime`, `CopyStack`,
`CopyCaller`), all `true` by default in the source. -/
structure Config where
  copyTime : Bool
  copyStack : Bool
  copyCaller : Bool

/-- `zapcore.Entry`: level, time, message, optional stack trace (empty
string when absent) and optional caller (with `caller` the string
`zerolog.CallerMarshalFunc` renders from its PC/file/line). -/
structure Entry where
  level : Int
  time : GoTime
  message : String
  stack : String
  callerDefined : Bool
  caller : String

/-- `zeroZap.Enabled`: `z.GetLevel() <= levelMap[level]`. -/
def ZeroZap.Enabled (z : ZeroZap) (level : Int) : Bool :=
  decide (z.level ≤ levelMap level)

/-- `fieldsToEvent`: encode the fields in order onto the event accumulator.
A namespace marker sends all remaining fields of the list into a fresh
`zerolog.Dict`, which is attached under the marker's key once they all
encoded successfully; the first error aborts (the event is never
committed). -/
def fieldsToEvent : List LogField → List (String × JValue) →
    Except String (List (String × JValue))
  | [], evt => .ok evt
  | f :: rest, evt =>
    match fieldStep f with
    | .pairs ps none => fieldsToEvent rest (evt ++ ps)
    | .pairs _ (some e) => .error e
    | .nsOpen k =>
      match fieldsToEvent rest [] with
      | .error e => .error e
      | .ok sub => .ok (evt ++ [(k, JValue.obj sub)])
    | .failNow e => .error e

/-- The event content `zeroZap.Write` accumulates before encoding the user
fields: the level pair written by `zerolog.Logger.WithLevel`, the logger's
persistent context, then the optional time / stack / caller copies in the
order the source writes them. -/
def writeBase (cfg : Config) (z : ZeroZap) (entry : Entry) :
    List (String × JValue) :=
  [(LevelFieldName, JValue.str (zeroLevelName (levelMap entry.level)))]
    ++ z.context
    ++ (if cfg.copyTime then [(TimestampFieldName, JValue.timeV entry.time)] else [])
    ++ (if entry.stack != "" && cfg.copyStack then
        [(ErrorStackFieldName, JValue.str entry.stack)] else [])
    ++ (if entry.callerDefined && cfg.copyCaller then
        [(CallerFieldName, JValue.str entry.caller)] else [])

/-- `zeroZap.Write`: build the event at the mapped level, copy the gated
entry metadata, encode the fields, and on success commit the message
(`Event.Msg`, which omits the message pair when the message is empty) —
yielding the emitted line.  On an encoding error the error is returned and
no line is emitted. -/
def ZeroZap.Write (cfg : Config) (z : ZeroZap) (entry : Entry)
    (fields : List LogField) : Except String JValue :=
  match fieldsToEvent fields (writeBase cfg z entry) with
  | .error e => .error e
  | .ok ps =>
    .ok (JValue.obj (if entry.message == "" then ps
      else ps ++ [(MessageFieldName, JValue.str entry.message)]))

/-- The field loop of `zeroZap.With`, chaining `zerolog.Context` starting
from the wrapped logger's existing context: same per-kind encoding as
`fieldsToEvent`, but a namespace marker panics
(`"unsupported field type namespace"`), an unknown kind panics, and a
marshaler error panics — all modelled as `.error`. -/
def withFields : List LogField → List (String × JValue) →
    Except String (List (String × JValue))
  | [], acc => .ok acc
  | f :: rest, acc =>
    match fieldStep f with
    | .pairs ps none => withFields rest (acc ++ ps)
    | .pairs _ (some e) => .error e
    | .nsOpen _ => .error "unsupported field type namespace"
    | .failNow e => .error e

/-- Result of `zeroZap.With`: either a new core value, or a Go `panic`
(which, unlike `Write`'s returned error, aborts the caller). -/
inductive WithResult where
  | ok (z : ZeroZap)
  | panicked (msg : String)

/-- `zeroZap.With`: returns a fresh core wrapping
`z.Logger.With().<fields>.Logger()` — the parent value is not touched — or
panics on the first encoding failure. -/
def ZeroZap.With (z : ZeroZap) (fields : List LogField) : WithResult :=
  match withFields fields z.context with
  | .error e => .panicked e
  | .ok ps => .ok ⟨z.level, ps⟩

/-- A successful `fieldsToEvent` run only ever appends to the accumulator it
was given. -/
theorem fieldsToEvent_extends (l : List LogField) :
    ∀ acc ps, fieldsToEvent l acc = .ok ps → ∃ suf, ps = acc ++ suf := by
  induction l with
  | nil =>
    intro acc ps h
    simp only [fieldsToEvent] at h
    exact ⟨[], by injection h with h; simp [h]⟩
  | cons f rest ih =>
    intro acc ps h
    simp only [fieldsToEvent] at h
    cases hf : fieldStep f with
    | pairs qs err =>
      rw [hf] at h
      cases err with
      | none =>
        obtain ⟨suf, hs⟩ := ih _ _ h
        exact ⟨qs ++ suf, by simp [hs]⟩
      | some e => exact absurd h (by simp)
    | nsOpen k =>
      rw [hf] at h
      cases hsub : fieldsToEvent rest [] with
      | error e => rw [hsub] at h; exact absurd h (by simp)
      | ok sub =>
        rw [hsub] at h
        exact ⟨[(k, JValue.obj sub)], by injection h with h; exact h.symm⟩
    | failNow e => rw [hf] at h; exact absurd h (by simp)

/-- If the fields before `f` encode successfully (possibly opening namespace
scopes along the way) and `f` itself produces an encoding error, then
encoding the whole list yields exactly that error — the fields after `f` are
never consulted. -/
theorem fieldsToEvent_err (pre : List LogField) :
    ∀ (f : LogField) (post : List LogField) acc acc1 e,
      fieldsToEvent pre acc = .ok acc1 → fieldErr f = some e →
      fieldsToEvent (pre ++ f :: post) acc = .error e := by
  induction pre with
  | nil =>
    intro f post acc acc1 e h1 h2
    unfold fieldErr at h2
    show fieldsToEvent (f :: post) acc = .error e
    cases hf : fieldStep f with
    | pairs qs err =>
      cases err with
      | none => rw [hf] at h2; exact absurd h2 (by simp)
      | some e2 =>
        rw [hf] at h2
        injection h2 with h2
        simp only [fieldsToEvent, hf, h2]
    | nsOpen k => rw [hf] at h2; exact absurd h2 (by simp)
    | failNow e2 =>
      rw [hf] at h2
      injection h2 with h2
      simp only [fieldsToEvent, hf, h2]
  | cons g rest ih =>
    intro f post acc acc1 e h1 h2
    cases hg : fieldStep g with
    | pairs qs err =>
      cases err with
      | none =>
        simp only [fieldsToEvent, List.cons_append, hg] at h1 ⊢
        exact ih f post _ acc1 e h1 h2
      | some e2 =>
        simp only [fieldsToEvent, hg] at h1
        exact absurd h1 (by simp)
    | nsOpen k =>
      simp only [fieldsToEvent, List.cons_append, hg] at h1 ⊢
      cases hsub : fieldsToEvent rest [] with
      | error e2 => rw [hsub] at h1; exact absurd h1 (by simp)
      | ok sub =>
        have hia := ih f post [] sub e hsub h2
        simp only [List.append_eq]
        rw [hia]
    | failNow e2 =>
      simp only [fieldsToEvent, hg] at h1
      exact absurd h1 (by simp)

/-- A field whose kind is outside the enumeration makes `fieldsToEvent`
fail, wherever it occurs in the list. -/
theorem fieldsToEvent_unknown_mem (l : List LogField) :
    ∀ acc d, LogField.unknown d ∈ l → ∃ e, fieldsToEvent l acc = .error e := by
  induction l with
  | nil => intro acc d h; exact absurd h (List.not_mem_nil _)
  | cons f rest ih =>
    intro acc d h
    rcases List.mem_cons.mp h with h | h
    · subst h
      exact ⟨unknownFieldMsg d, by simp [fieldsToEvent, fieldStep]⟩
    · cases hf : fieldStep f with
      | pairs qs err =>
        cases err with
        | none =>
          obtain ⟨e, he⟩ := ih (acc ++ qs) d h
          exact ⟨e, by simp only [fieldsToEvent, hf]; exact he⟩
        | some e => exact ⟨e, by simp only [fieldsToEvent, hf]⟩
      | nsOpen k =>
        obtain ⟨e, he⟩ := ih [] d h
        exact ⟨e, by simp only [fieldsToEvent, hf, he]⟩
      | failNow e => exact ⟨e, by simp only [fieldsToEvent, hf]⟩

/-- `withFields` relative to an accumulator is the run from the empty
accumulator, prefixed. -/
theorem withFields_shift (l : List LogField) :
    ∀ acc, withFields l acc = Except.map (fun s => acc ++ s) (withFields l []) := by
  induction l with
  | nil => intro acc; simp [withFields, Except.map]
  | cons f rest ih =>
    intro acc
    cases hf : fieldStep f with
    | pairs qs err =>
      cases err with
      | none =>
        simp only [withFields, hf]
        rw [ih (acc ++ qs), ih ([] ++ qs)]
        cases withFields rest [] with
        | error e => simp [Except.map]
        | ok s => simp [Except.map]
      | some e => simp only [withFields, hf]; rfl
    | nsOpen k => simp only [withFields, hf]; rfl
    | failNow e => simp only [withFields, hf]; rfl

/-- `withFields` analogue of `fieldsToEvent_err`: a successful front
followed by a failing field yields exactly that field's panic message. -/
theorem withFields_err (pre : List LogField) :
    ∀ (f : LogField) (post : List LogField) acc acc1 e,
      withFields pre acc = .ok acc1 → withFieldErr f = some e →
      withFields (pre ++ f :: post) acc = .error e := by
  induction pre with
  | nil =>
    intro f post acc acc1 e h1 h2
    unfold withFieldErr at h2
    show withFields (f :: post) acc = .error e
    cases hf : fieldStep f with
    | pairs qs err =>
      cases err with
      | none => rw [hf] at h2; exact absurd h2 (by simp)
      | some e2 =>
        rw [hf] at h2
        injection h2 with h2
        simp only [withFields, hf, h2]
    | nsOpen k =>
      rw [hf] at h2
      injection h2 with h2
      simp only [withFields, hf, h2]
    | failNow e2 =>
      rw [hf] at h2
      injection h2 with h2
      simp only [withFields, hf, h2]
  | cons g rest ih =>
    intro f post acc acc1 e h1 h2
    cases hg : fieldStep g with
    | pairs qs err =>
      cases err with
      | none =>
        simp only [withFields, List.cons_append, hg] at h1 ⊢
        exact ih f post _ acc1 e h1 h2
      | some e2 =>
        simp only [withFields, hg] at h1
        exact absurd h1 (by simp)
    | nsOpen k =>
      simp only [withFields, hg] at h1
      exact absurd h1 (by simp)
    | failNow e2 =>
      simp only [withFields, hg] at h1
      exact absurd h1 (by simp)

/-- Injecting `AppendArray` anywhere after a successful front of array
appends makes the marshaler run fail with the unsupported-feature error,
keeping the elements appended so far. -/
theorem runArrOps_appendArray (front : List ArrOp) :
    ∀ (m rear : List ArrOp) acc, (runArrOps front acc).2 = none →
      runArrOps (front ++ ArrOp.appendArray m :: rear) acc =
        ((runArrOps front acc).1, some nestedArrayErr) := by
  induction front with
  | nil => intro m rear acc _; simp [runArrOps, zeroArrayAppendArray]
  | cons op rest ih =>
    intro m rear acc h
    cases op with
    | appendArray m2 =>
      exact absurd h (by simp [runArrOps, zeroArrayAppendArray])
    | appendInt v =>
      simp only [runArrOps, List.cons_append] at h ⊢
      exact ih m rear _ h
    | appendStr s =>
      simp only [runArrOps, List.cons_append] at h ⊢
      exact ih m rear _ h
    | appendBool b =>
      simp only [runArrOps, List.cons_append] at h ⊢
      exact ih m rear _ h
    | fail e => exact absurd h (by simp [runArrOps])

/-- Claim C1: for every configured minimum level of the wrapped zerolog
logger and every zap level in the severity enumeration, `Enabled(level)` is
true iff the configured minimum level is ≤ the mapped target level, where
the mapping sends debug/info/warn/error/dpanic/panic/fatal to the zerolog
levels debug/info/warn/error/panic/panic/fatal (DPanic and Panic collapse
onto the same target level). -/
theorem Enabled_matches_level_mapping (z : ZeroZap) :
    (ZeroZap.Enabled z zapDebugLevel = true ↔ z.level ≤ zerologDebugLevel) ∧
    (ZeroZap.Enabled z zapInfoLevel = true ↔ z.level ≤ zerologInfoLevel) ∧
    (ZeroZap.Enabled z zapWarnLevel = true ↔ z.level ≤ zerologWarnLevel) ∧
    (ZeroZap.Enabled z zapErrorLevel = true ↔ z.level ≤ zerologErrorLevel) ∧
    (ZeroZap.Enabled z zapDPanicLevel = true ↔ z.level ≤ zerologPanicLevel) ∧
    (ZeroZap.Enabled z zapPanicLevel = true ↔ z.level ≤ zerologPanicLevel) ∧
    (ZeroZap.Enabled z zapFatalLevel = true ↔ z.level ≤ zerologFatalLevel) ∧
    levelMap zapDPanicLevel = levelMap zapPanicLevel := by
  refine ⟨?_, ?_, ?_, ?_, ?_, ?_, ?_, ?_⟩ <;>
    simp [ZeroZap.Enabled, levelMap, zapDebugLevel, zapInfoLevel, zapWarnLevel,
      zapErrorLevel, zapDPanicLevel, zapPanicLevel, zapFatalLevel,
      zerologDebugLevel, zerologInfoLevel, zerologWarnLevel, zerologErrorLevel,
      zerologFatalLevel, zerologPanicLevel]

/-- Claim C2: if encoding any field fails (unsupported nested array, unknown
field kind, or a marshaler callback returning an error), `Write` returns the
first error encountered and does not emit the log line (the result is the
error, never a committed line), and the fields after the failing one are not
encoded — the result does not depend on `post`. -/
theorem Write_fails_fast (cfg : Config) (z : ZeroZap) (entry : Entry)
    (pre : List LogField) (f : LogField) (post : List LogField)
    (acc : List (String × JValue)) (e : String)
    (h1 : fieldsToEvent pre (writeBase cfg z entry) = .ok acc)
    (h2 : fieldErr f = some e) :
    ZeroZap.Write cfg z entry (pre ++ f :: post) = .error e := by
  unfold ZeroZap.Write
  rw [fieldsToEvent_err pre f post _ acc e h1 h2]

theorem Write_fails_fast_witness :
    ZeroZap.Write ⟨false, false, false⟩ ⟨1, []⟩
        ⟨0, ⟨0, GoLocation.utc⟩, "m", "", false, ""⟩
        ([LogField.intF "a" 1] ++
          LogField.array "k" [ArrOp.fail "boom"] :: [LogField.stringF "b" "x"]) =
      .error "boom" :=
  Write_fails_fast ⟨false, false, false⟩ ⟨1, []⟩
    ⟨0, ⟨0, GoLocation.utc⟩, "m", "", false, ""⟩
    [LogField.intF "a" 1] (LogField.array "k" [ArrOp.fail "boom"])
    [LogField.stringF "b" "x"]
    [(LevelFieldName, JValue.str "info"), ("a", JValue.intV 1)] "boom"
    (by rfl) (by rfl)

/-- Claim C3: the field list namespace `"meow??"`, `subfield=1`, namespace
`"meow!!"`, `subsubfield=2` encodes to the nested structure
`meow??: (subfield: 1, meow!!: (subsubfield: 2))`: each namespace marker
redirects all subsequent fields into a nested accumulator, nesting is
structural, and the inner scope is attached to the outer one before the
outer one is attached to the event.  The second conjunct shows the full
line such a write emits. -/
theorem namespace_nesting_structural :
    fieldsToEvent [LogField.nsMarker "meow??", LogField.intF "subfield" 1,
        LogField.nsMarker "meow!!", LogField.intF "subsubfield" 2] [] =
      .ok [("meow??", JValue.obj [("subfield", JValue.intV 1),
        ("meow!!", JValue.obj [("subsubfield", JValue.intV 2)])])] ∧
    ZeroZap.Write ⟨false, false, false⟩ ⟨1, []⟩
        ⟨zapInfoLevel, ⟨0, GoLocation.utc⟩, "Namespaced fields", "", false, ""⟩
        [LogField.nsMarker "meow??", LogField.intF "subfield" 1,
          LogField.nsMarker "meow!!", LogField.intF "subsubfield" 2] =
      .ok (JValue.obj [("level", JValue.str "info"),
        ("meow??", JValue.obj [("subfield", JValue.intV 1),
          ("meow!!", JValue.obj [("subsubfield", JValue.intV 2)])]),
        ("message", JValue.str "Namespaced fields")]) :=
  ⟨rfl, rfl⟩

/-- Claim C4: for every array marshaler and every state of the target array
accumulator, `zeroArray.AppendArray` fails deterministically with the
unsupported-feature error (leaving the accumulator untouched and never
invoking the marshaler), and when the failing append happens inside the
array marshaler of a field, the error is propagated to the caller of the
enclosing `Write` (returned) or `With` (panicked) rather than silently
dropped. -/
theorem nested_array_always_rejected :
    (∀ (st : List JValue) (m : List ArrOp),
      zeroArrayAppendArray st m = (st, some nestedArrayErr)) ∧
    (∀ (cfg : Config) (z : ZeroZap) (entry : Entry) (k : String)
        (front m rear : List ArrOp), (runArrOps front []).2 = none →
      ZeroZap.Write cfg z entry
          [LogField.array k (front ++ ArrOp.appendArray m :: rear)] =
        .error nestedArrayErr) ∧
    (∀ (z : ZeroZap) (k : String) (front m rear : List ArrOp),
        (runArrOps front []).2 = none →
      ZeroZap.With z [LogField.array k (front ++ ArrOp.appendArray m :: rear)] =
        .panicked nestedArrayErr) := by
  refine ⟨fun st m => rfl, ?_, ?_⟩
  · intro cfg z entry k front m rear h
    have hrun := runArrOps_appendArray front m rear [] h
    unfold ZeroZap.Write
    simp only [fieldsToEvent, fieldStep, runArrMarshal, hrun]
  · intro z k front m rear h
    have hrun := runArrOps_appendArray front m rear [] h
    unfold ZeroZap.With
    simp only [withFields, fieldStep, runArrMarshal, hrun]

theorem nested_array_always_rejected_witness :
    ZeroZap.Write ⟨false, false, false⟩ ⟨1, []⟩
        ⟨0, ⟨0, GoLocation.utc⟩, "m", "", false, ""⟩
        [LogField.array "k" ([ArrOp.appendInt 1] ++ ArrOp.appendArray [] :: [])] =
      .error nestedArrayErr :=
  nested_array_always_rejected.2.1 ⟨false, false, false⟩ ⟨1, []⟩
    ⟨0, ⟨0, GoLocation.utc⟩, "m", "", false, ""⟩ "k"
    [ArrOp.appendInt 1] [] [] (by rfl)

/-- Claim C5: a write at info level with message `"Hello, world!"`, no
fields, an empty logger context, the time-copy flag disabled and the
stack/caller copies disabled or absent emits exactly the line
`level: "info", message: "Hello, world!"` — no extraneous pairs, level
first, message last. -/
theorem write_hello_world_line (cfg : Config) (z : ZeroZap) (entry : Entry)
    (hctx : z.context = [])
    (ht : cfg.copyTime = false)
    (hs : cfg.copyStack = false ∨ entry.stack = "")
    (hc : cfg.copyCaller = false ∨ entry.callerDefined = false)
    (hl : entry.level = zapInfoLevel)
    (hm : entry.message = "Hello, world!") :
    ZeroZap.Write cfg z entry [] =
      .ok (JValue.obj [(LevelFieldName, JValue.str "info"),
        (MessageFieldName, JValue.str "Hello, world!")]) := by
  unfold ZeroZap.Write writeBase
  rw [hctx, ht, hl, hm]
  rcases hs with hs | hs <;> rcases hc with hc | hc <;>
    simp [hs, hc, fieldsToEvent, levelMap, zeroLevelName, zapDebugLevel,
      zapInfoLevel, zapWarnLevel, zapErrorLevel, zapDPanicLevel, zapPanicLevel,
      zapFatalLevel, zerologDebugLevel, zerologInfoLevel, zerologWarnLevel,
      zerologErrorLevel, zerologFatalLevel, zerologPanicLevel]

theorem write_hello_world_line_witness :
    ZeroZap.Write ⟨false, false, false⟩ ⟨1, []⟩
        ⟨0, ⟨0, GoLocation.utc⟩, "Hello, world!", "", false, ""⟩ [] =
      .ok (JValue.obj [(LevelFieldName, JValue.str "info"),
        (MessageFieldName, JValue.str "Hello, world!")]) :=
  write_hello_world_line ⟨false, false, false⟩ ⟨1, []⟩
    ⟨0, ⟨0, GoLocation.utc⟩, "Hello, world!", "", false, ""⟩
    rfl rfl (Or.inl rfl) (Or.inl rfl) rfl rfl

/-- Claim C6 — code bug.  The first conjunct shows that a time field
carrying a separate timezone is placed in that timezone before being handed
to the backend, as the claim states.  But with a nil location the code calls
`time.Unix(0, f.Integer)` without `.UTC()`, and Go's `time.Unix` returns the
time in the process-local zone — so the encoder falls back to `time.Local`,
not to UTC as the claim and the source's own comment
("Fall back to UTC if location is nil.") state; the second and third
conjuncts exhibit the divergence. -/
theorem time_nil_location_is_local_not_utc :
    fieldsToEvent
        [LogField.timeF "t" 5 (some (GoLocation.named "America/New_York"))] [] =
      .ok [("t", JValue.timeV ⟨5, GoLocation.named "America/New_York"⟩)] ∧
    fieldsToEvent [LogField.timeF "t" 5 none] [] =
      .ok [("t", JValue.timeV ⟨5, GoLocation.local⟩)] ∧
    GoLocation.local ≠ GoLocation.utc :=
  ⟨rfl, rfl, by decide⟩

/-- Claim C7: `With` returns a new core whose context is the parent's
context extended with the encoded fields; the parent value `z` itself is
passed untouched, so what the parent (or any sibling derived the same way)
emits is unaffected — the result is a function of the parent's state and the
given fields only. -/
theorem With_extends_context_without_mutation (z : ZeroZap)
    (fields : List LogField) (ps : List (String × JValue))
    (h : withFields fields [] = .ok ps) :
    ZeroZap.With z fields = .ok ⟨z.level, z.context ++ ps⟩ := by
  unfold ZeroZap.With
  rw [withFields_shift fields z.context, h]
  rfl

theorem With_extends_context_without_mutation_witness :
    ZeroZap.With ⟨2, [("parent", JValue.intV 0)]⟩ [LogField.intF "a" 1] =
      .ok ⟨2, [("parent", JValue.intV 0)] ++ [("a", JValue.intV 1)]⟩ :=
  With_extends_context_without_mutation ⟨2, [("parent", JValue.intV 0)]⟩
    [LogField.intF "a" 1] [("a", JValue.intV 1)] (by rfl)

/-- Claim C8: a field whose kind is outside the known field-type enumeration
makes `Write` fail hard: whenever such a field occurs, `Write` returns an
error and never emits a line; and when the fields before it encoded
successfully the returned error is exactly the one describing the
unrecognized field. -/
theorem unknown_field_kind_hard_failure :
    (∀ (cfg : Config) (z : ZeroZap) (entry : Entry) (fields : List LogField)
        (d : String), LogField.unknown d ∈ fields →
      ∃ e, ZeroZap.Write cfg z entry fields = .error e) ∧
    (∀ (cfg : Config) (z : ZeroZap) (entry : Entry) (pre : List LogField)
        (d : String) (post : List LogField) (acc : List (String × JValue)),
        fieldsToEvent pre (writeBase cfg z entry) = .ok acc →
      ZeroZap.Write cfg z entry (pre ++ LogField.unknown d :: post) =
        .error (unknownFieldMsg d)) := by
  constructor
  · intro cfg z entry fields d hmem
    obtain ⟨e, he⟩ :=
      fieldsToEvent_unknown_mem fields (writeBase cfg z entry) d hmem
    exact ⟨e, by unfold ZeroZap.Write; rw [he]⟩
  · intro cfg z entry pre d post acc h1
    unfold ZeroZap.Write
    rw [fieldsToEvent_err pre _ post _ acc _ h1 (by rfl)]

theorem unknown_field_kind_hard_failure_witness :
    ∃ e, ZeroZap.Write ⟨false, false, false⟩ ⟨1, []⟩
        ⟨0, ⟨0, GoLocation.utc⟩, "m", "", false, ""⟩
        [LogField.unknown "meow"] = .error e :=
  unknown_field_kind_hard_failure.1 ⟨false, false, false⟩ ⟨1, []⟩
    ⟨0, ⟨0, GoLocation.utc⟩, "m", "", false, ""⟩
    [LogField.unknown "meow"] "meow" (by simp)

/-- Claim C9: `With` never returns an encoding failure as a normal result —
when the fields before `f` encode successfully and `f` fails (a namespace
marker, an unknown kind, or an array/object/inline marshaler whose callback
records an error), `With` panics with that message instead of returning an
error value the way `Write` does. -/
theorem With_panics_on_encoding_failure (z : ZeroZap) (pre : List LogField)
    (f : LogField) (post : List LogField) (acc : List (String × JValue))
    (e : String)
    (h1 : withFields pre z.context = .ok acc)
    (h2 : withFieldErr f = some e) :
    ZeroZap.With z (pre ++ f :: post) = .panicked e := by
  unfold ZeroZap.With
  rw [withFields_err pre f post _ acc e h1 h2]

theorem With_panics_on_encoding_failure_witness :
    ZeroZap.With ⟨0, []⟩ ([] ++ LogField.nsMarker "ns" :: []) =
      .panicked "unsupported field type namespace" :=
  With_panics_on_encoding_failure ⟨0, []⟩ [] (LogField.nsMarker "ns") [] []
    "unsupported field type namespace" (by rfl) (by rfl)

/-- Claim C10: for every zap level outside the seven mapped severities, the
`levelMap` lookup yields the map's zero value — `zerolog.Level(0)`, i.e.
debug — so `Enabled` returns true exactly when the configured minimum level
is ≤ debug, and `Write` builds the event at debug level (the emitted line's
leading level pair reads `"debug"`) rather than failing. -/
theorem unmapped_level_defaults_to_debug (l : Int)
    (h : l < zapDebugLevel ∨ zapFatalLevel < l) :
    levelMap l = zerologDebugLevel ∧
    (∀ z : ZeroZap, ZeroZap.Enabled z l = decide (z.level ≤ zerologDebugLevel)) ∧
    (∀ (cfg : Config) (z : ZeroZap) (entry : Entry) (fields : List LogField)
        (ps : List (String × JValue)), entry.level = l →
      ZeroZap.Write cfg z entry fields = .ok (JValue.obj ps) →
      ps.head? = some (LevelFieldName, JValue.str "debug")) := by
  have hm : levelMap l = zerologDebugLevel := by
    simp only [levelMap, zapDebugLevel, zapInfoLevel, zapWarnLevel,
      zapErrorLevel, zapDPanicLevel, zapPanicLevel, zapFatalLevel,
      zerologDebugLevel, zerologInfoLevel, zerologWarnLevel, zerologErrorLevel,
      zerologFatalLevel, zerologPanicLevel] at h ⊢
    rcases h with h | h <;> split_ifs <;> omega
  refine ⟨hm, fun z => by unfold ZeroZap.Enabled; rw [hm], ?_⟩
  intro cfg z entry fields ps hlvl hw
  unfold ZeroZap.Write at hw
  cases hfe : fieldsToEvent fields (writeBase cfg z entry) with
  | error e => rw [hfe] at hw; exact absurd hw (by simp)
  | ok qs =>
    rw [hfe] at hw
    simp only [] at hw
    obtain ⟨suf, hsuf⟩ :=
      fieldsToEvent_extends fields (writeBase cfg z entry) qs hfe
    injection hw with hw
    injection hw with hw
    subst hw
    rw [hsuf]
    have hname : zeroLevelName (levelMap entry.level) = "debug" := by
      rw [hlvl, hm]; rfl
    cases hmsg : (entry.message == "") <;>
      simp [hmsg, writeBase, hname, List.append_assoc]

theorem unmapped_level_defaults_to_debug_witness :
    levelMap 100 = zerologDebugLevel ∧
    List.head? [(LevelFieldName, JValue.str "debug"),
        (MessageFieldName, JValue.str "m")] =
      some (LevelFieldName, JValue.str "debug") := by
  have h := unmapped_level_defaults_to_debug 100 (Or.inr (by decide))
  exact ⟨h.1, h.2.2 ⟨false, false, false⟩ ⟨0, []⟩
    ⟨100, ⟨0, GoLocation.utc⟩, "m", "", false, ""⟩ []
    [(LevelFieldName, JValue.str "debug"), (MessageFieldName, JValue.str "m")]
    rfl rfl⟩
